import Mathlib

/-!
Verification development for the drawio diagram extraction engine
(`src/index.js`).  The JavaScript source is shallowly embedded: JS strings
become `String`/`List Char`, absent attributes become `none : Option String`
(an attribute key that is missing from an xml2js `$` object), JS truthiness
of a string (`undefined`/`""` are falsy) is the helper `optTruthy`, and the
exception behaviour of the asynchronous decode pipeline is modelled with
`Option`/`Except`.  External library calls (zlib inflate, base64, URL
decoding, the xml2js parser) are not part of the repository; they enter as
explicit oracle parameters (`DecodeEnv`, the `xmlParse` argument), so the
theorems quantify over every possible behaviour of those libraries.
-/

/-- JS truthiness of a possibly-absent string attribute: `undefined`, `null`
and `""` are falsy, every other string is truthy. -/
def optTruthy (o : Option String) : Bool :=
  match o with
  | some s => !s.data.isEmpty
  | none => false

/-- JS `a || b` for a possibly-absent string `a` with a string default `b`. -/
def jsOrStr (o : Option String) (b : String) : String :=
  match o with
  | some s => if s.data.isEmpty then b else s
  | none => b

/-- Substring containment on character lists: JS `String.prototype.includes`. -/
def listHas (needle : List Char) : List Char → Bool
  | [] => needle.isEmpty
  | c :: t => needle.isPrefixOf (c :: t) || listHas needle t

/-- Lower-casing of a character list: JS `String.prototype.toLowerCase`
(ASCII; sufficient for the classifier's ASCII rule tokens). -/
def lowerc (l : List Char) : List Char := l.map Char.toLower

/-- `listHas` specialised to strings, the exact shape of `s.includes(tok)`. -/
def strHas (s : String) (tok : String) : Bool := listHas tok.data s.data

/-- Whitespace test used by the trim/collapse helpers (JS `\s` core cases). -/
def isWsp (c : Char) : Bool := c == ' ' || c == '\n' || c == '\t' || c == '\r'

/-- Trim on character lists: JS `String.prototype.trim`. -/
def trimChars (l : List Char) : List Char :=
  ((l.dropWhile isWsp).reverse.dropWhile isWsp).reverse

/-- JS `s.trim()`. -/
def strTrim (s : String) : String := ⟨trimChars s.data⟩

/-- `detectType` (src/index.js lines 34-55), the body after the `!style`
guard: an ordered chain of substring checks over the lower-cased style. -/
def detectTypeCore (s : List Char) : String :=
  if listHas "swimlane".data s then "swimlane"
  else if listHas "rhombus".data s then "decision"
  else if listHas "ellipse".data s && listHas "double".data s then "start/end"
  else if listHas "ellipse".data s then "ellipse"
  else if listHas "cylinder".data s then "database"
  else if listHas "cloud".data s then "cloud"
  else if listHas "shape=process".data s then "process"
  else if listHas "shape=mxgraph.bpmn".data s then "bpmn"
  else if listHas "shape=image".data s then "icon"
  else if listHas "shape=hexagon".data s then "hexagon"
  else if listHas "shape=parallelogram".data s then "parallelogram"
  else if listHas "shape=document".data s then "document"
  else if listHas "shape=callout".data s then "callout"
  else if listHas "shape=note".data s then "note"
  else if listHas "text;".data s then "text"
  else if listHas "group".data s then "group"
  else if listHas "rounded".data s then "rounded-rect"
  else "shape"

/-- `detectType(style)` (src/index.js lines 34-55).  `none` is an absent
style attribute; the empty string is also falsy in JS, hence the guard. -/
def detectType : Option String → String
  | none => "shape"
  | some st => if st.data.isEmpty then "shape" else detectTypeCore (lowerc st.data)

/-- `detectRelationType` (src/index.js lines 57-66), body after the guard.
No lower-casing happens here: the checks are on the raw style string. -/
def detectRelCore (s : List Char) : String :=
  if listHas "dashed".data s then "dependency"
  else if listHas "endArrow=block".data s && listHas "endFill=0".data s then "inheritance"
  else if listHas "endArrow=block".data s then "flow"
  else if listHas "endArrow=diamondThin".data s || listHas "endArrow=diamond".data s then "composition"
  else if listHas "endArrow=open".data s && listHas "dashed".data s then "async/message"
  else if listHas "endArrow=open".data s then "aggregation"
  else "flow"

/-- `detectRelationType(style)` (src/index.js lines 57-66). -/
def detectRelationType : Option String → String
  | none => "flow"
  | some st => if st.data.isEmpty then "flow" else detectRelCore st.data

/-- A classifier rule: a predicate over the style characters plus the
resulting type label.  Formalises the spec's "ordered rule list". -/
abbrev StyleRule : Type := (List Char → Bool) × String

/-- Ordered first-match evaluation of a rule list with a fallback label;
this is the spec's description of the classifier, to be compared with the
if-chains taken from the source. -/
def firstMatch (dflt : String) : List StyleRule → List Char → String
  | [], _ => dflt
  | r :: rs, s => if r.1 s then r.2 else firstMatch dflt rs s

/-- The shape-precedence list exactly as the spec (and claim C3) orders it. -/
def shapeRules : List StyleRule :=
  [ (fun s => listHas "swimlane".data s, "swimlane")
  , (fun s => listHas "rhombus".data s, "decision")
  , (fun s => listHas "ellipse".data s && listHas "double".data s, "start/end")
  , (fun s => listHas "ellipse".data s, "ellipse")
  , (fun s => listHas "cylinder".data s, "database")
  , (fun s => listHas "cloud".data s, "cloud")
  , (fun s => listHas "shape=process".data s, "process")
  , (fun s => listHas "shape=mxgraph.bpmn".data s, "bpmn")
  , (fun s => listHas "shape=image".data s, "icon")
  , (fun s => listHas "shape=hexagon".data s, "hexagon")
  , (fun s => listHas "shape=parallelogram".data s, "parallelogram")
  , (fun s => listHas "shape=document".data s, "document")
  , (fun s => listHas "shape=callout".data s, "callout")
  , (fun s => listHas "shape=note".data s, "note")
  , (fun s => listHas "text;".data s, "text")
  , (fun s => listHas "group".data s, "group")
  , (fun s => listHas "rounded".data s, "rounded-rect") ]

/-- The relationship-precedence list in the order claim C4 gives. -/
def relRules : List StyleRule :=
  [ (fun s => listHas "dashed".data s, "dependency")
  , (fun s => listHas "endArrow=block".data s && listHas "endFill=0".data s, "inheritance")
  , (fun s => listHas "endArrow=block".data s, "flow")
  , (fun s => listHas "endArrow=diamondThin".data s || listHas "endArrow=diamond".data s, "composition")
  , (fun s => listHas "endArrow=open".data s && listHas "dashed".data s, "async/message")
  , (fun s => listHas "endArrow=open".data s, "aggregation") ]

/-- Suffix test on character lists (`w` is a suffix of the other list);
used to characterise where the `"text;"` rule can match inside a
semicolon-terminated token join. -/
def endsWith (w : List Char) : List Char → Bool
  | [] => w.isEmpty
  | c :: t => w == (c :: t) || endsWith w t

/-- Join a token list with the separator appended after every token —
the drawio convention for style strings (`"rounded=0;html=1;"`). -/
def joinTok (c : Char) : List (List Char) → List Char
  | [] => []
  | t :: ts => t ++ c :: joinTok c ts

/-- A style string assembled from semicolon-terminated tokens. -/
def styleOfTokens (toks : List String) : String :=
  ⟨joinTok ';' (toks.map String.data)⟩

/-- Join a token list with the separator placed between tokens
(plain semicolon-separated form, as in the claim's wording). -/
def sepJoin (c : Char) : List (List Char) → List Char
  | [] => []
  | [t] => t
  | t :: ts => t ++ c :: sepJoin c ts

/-- A style string assembled from semicolon-separated tokens. -/
def styleSep (toks : List String) : String :=
  ⟨sepJoin ';' (toks.map String.data)⟩

/-- Strip a literal pattern from the front of a list, returning the
remainder together with the bound needed for termination proofs. -/
def stripPrefixChars : (ps l : List Char) → Option { r : List Char // r.length ≤ l.length }
  | [], l => some ⟨l, Nat.le_refl _⟩
  | _ :: _, [] => none
  | p :: ps, c :: t =>
    match stripPrefixChars ps t with
    | some ⟨r, hr⟩ => if p = c then some ⟨r, Nat.le_succ_of_le hr⟩ else none
    | none => none

/-- Worker for global literal replacement; the `Nat` is a structural fuel
bound on the characters still to be scanned, so that the kernel can
evaluate the function (each step consumes at least one input character, so
fuel `l.length` is always sufficient and the `0` arm is unreachable). -/
def replAllGo (p : Char) (ps rep : List Char) : Nat → List Char → List Char
  | _, [] => []
  | 0, l => l
  | fuel + 1, c :: t =>
    if p = c then
      match stripPrefixChars ps t with
      | some r => rep ++ replAllGo p ps rep fuel r.1
      | none => c :: replAllGo p ps rep fuel t
    else c :: replAllGo p ps rep fuel t

/-- Global literal replacement, JS `s.replace(/pat/g, rep)` for a literal
pattern `p :: ps`: scan left to right, non-overlapping, and do not rescan
replaced text. -/
def replAll (p : Char) (ps rep : List Char) (l : List Char) : List Char :=
  replAllGo p ps rep l.length l

/-- The entity decoding chain of `decodeHtml` (src/index.js lines 20-27):
eight sequential global replacements. -/
def decodeHtmlChars (l : List Char) : List Char :=
  let l1 := replAll '&' "lt;".data "<".data l
  let l2 := replAll '&' "gt;".data ">".data l1
  let l3 := replAll '&' "amp;".data "&".data l2
  let l4 := replAll '&' "quot;".data "\"".data l3
  let l5 := replAll '&' "#xa;".data "\n".data l4
  let l6 := replAll '&' "#x9;".data "\t".data l5
  let l7 := replAll '&' "nbsp;".data " ".data l6
  replAll '&' "#39;".data "\x27".data l7

/-- Tag stripper state machine for the regex `<[^>]*>`: outside a candidate
tag (`none`) characters pass through; after a `<` the characters are
buffered (`some buf`, reversed) until a `>` closes the tag (buffer
discarded) or the input ends (no match: buffer restored verbatim). -/
def stripTagsGo : Option (List Char) → List Char → List Char
  | none, [] => []
  | some buf, [] => buf.reverse
  | none, c :: t => if c = '<' then stripTagsGo (some [c]) t else c :: stripTagsGo none t
  | some buf, c :: t => if c = '>' then stripTagsGo none t else stripTagsGo (some (c :: buf)) t

/-- JS `s.replace(/<[^>]*>/g, '')`. -/
def stripTags (l : List Char) : List Char := stripTagsGo none l

/-- Whitespace-run collapsing, JS `s.replace(/\s+/g, ' ')`: each maximal
whitespace run becomes a single space. -/
def collapseWsGo (prevWs : Bool) : List Char → List Char
  | [] => []
  | c :: t =>
    if isWsp c then
      if prevWs then collapseWsGo true t else ' ' :: collapseWsGo true t
    else c :: collapseWsGo false t

/-- JS `s.replace(/\s+/g, ' ')` from the start of the string. -/
def collapseWs (l : List Char) : List Char := collapseWsGo false l

/-- `stripHtml` (src/index.js lines 29-32): entity decode, then tag strip,
then whitespace collapse, then trim; falsy input yields the empty string. -/
def stripHtml (v : Option String) : String :=
  match v with
  | none => ""
  | some s =>
    if s.data.isEmpty then ""
    else ⟨trimChars (collapseWs (stripTags (decodeHtmlChars s.data)))⟩

/-- Attributes (`$`) of an `mxCell` element; a `none` field is an absent
attribute key. -/
structure MxAttrs where
  id : Option String
  value : Option String
  style : Option String
  parent : Option String
  edge : Option String
  source : Option String
  target : Option String
deriving DecidableEq

/-- Attributes (`$`) of a `UserObject`/`object` wrapper element.  Besides
`label`/`value`/`link`, a wrapper may carry attributes spelled like the
structural ones; the normalizer must ignore those in favour of the nested
cell's. -/
structure UOAttrs where
  id : Option String
  label : Option String
  value : Option String
  style : Option String
  parent : Option String
  edge : Option String
  source : Option String
  target : Option String
  link : Option String
deriving DecidableEq

/-- A `UserObject`/`object` element: its own attributes plus the attributes
of its first nested `mxCell` child (`uo.mxCell[0].$`), when present. -/
structure UORecord where
  attrs : UOAttrs
  inner : Option MxAttrs
deriving DecidableEq

/-- A `root` element of a graph model: its `mxCell`, `UserObject` and
`object` children, in document order per tag. -/
structure GraphRoot where
  mxCell : List MxAttrs
  userObject : List UORecord
  object : List UORecord
deriving DecidableEq

/-- An `mxGraphModel`-shaped object as xml2js hands it to the extractor:
whether it has attributes (`$`), its `root` children (absent vs present —
line 92 of the source distinguishes an absent `root` from an empty array),
and a possibly nested model object (`model.mxGraphModel[0]`). -/
inductive ModelNode : Type where
  | mk (hasDollar : Bool) (root : Option (List GraphRoot)) (sub : Option ModelNode) : ModelNode

/-- Whether the model object has a `$` attribute map. -/
def ModelNode.hasDollar : ModelNode → Bool
  | .mk d _ _ => d

/-- The model object's `root` children. -/
def ModelNode.root : ModelNode → Option (List GraphRoot)
  | .mk _ r _ => r

/-- The model object's nested `mxGraphModel[0]`, when that key is present. -/
def ModelNode.sub : ModelNode → Option ModelNode
  | .mk _ _ s => s

/-- One `diagram` element: `$.name`, its text content (`diagram._`), and
its `mxGraphModel` children when present. -/
structure Diagram where
  name : Option String
  content : Option String
  mxGraphModel : Option (List ModelNode)

/-- The parsed document; `diagram = none` covers both a missing `mxfile`
and a `mxfile` without `diagram` children (line 109 of the source). -/
structure ParsedDoc where
  diagram : Option (List Diagram)

/-- The normalized cell produced by `extractAllCells` (src/index.js lines
102-142): the pushed-object's keys, with `customAttrs` playing the role of
`_customAttrs` (set only for wrapped cells). -/
structure Cell where
  id : Option String
  value : Option String
  style : Option String
  parent : Option String
  edge : Option String
  source : Option String
  target : Option String
  page : Option String
  customAttrs : Option UOAttrs
deriving DecidableEq

/-- A direct `mxCell` becomes a cell verbatim (line 119-121:
`addCell(c.$ || {}, dName)`). -/
def mxToCell (dName : Option String) (a : MxAttrs) : Cell :=
  { id := a.id
  , value := a.value
  , style := a.style
  , parent := a.parent
  , edge := a.edge
  , source := a.source
  , target := a.target
  , page := dName
  , customAttrs := none }

/-- A wrapped `UserObject`/`object` becomes a cell via the object literal
`{ id: uoAttrs.id, value: uoAttrs.label || uoAttrs.value || '', ...innerAttrs }`
(lines 123-135): the spread of the nested cell's attributes lands last and
therefore overrides the two computed fields whenever the nested cell
carries the same key. -/
def uoToCell (dName : Option String) (uo : UORecord) : Cell :=
  let ia := match uo.inner with
    | some a => a
    | none => ⟨none, none, none, none, none, none, none⟩
  { id := match ia.id with
      | some i => some i
      | none => uo.attrs.id
  , value := some (match ia.value with
      | some v => v
      | none => jsOrStr uo.attrs.label (jsOrStr uo.attrs.value ""))
  , style := ia.style
  , parent := ia.parent
  , edge := ia.edge
  , source := ia.source
  , target := ia.target
  , page := dName
  , customAttrs := some uo.attrs }

/-- Line 116: `model.$ ? model : (model.mxGraphModel ? model.mxGraphModel[0] : model)`. -/
def selectModel (m : ModelNode) : ModelNode :=
  if m.hasDollar then m
  else match m.sub with
    | some s => s
    | none => m

/-- Cells of one `root` element, in source iteration order: `mxCell`
children first, then `UserObject`, then `object` (lines 118-136). -/
def cellsOfRoot (dName : Option String) (r : GraphRoot) : List Cell :=
  r.mxCell.map (mxToCell dName)
    ++ r.userObject.map (uoToCell dName)
    ++ r.object.map (uoToCell dName)

/-- Cells contributed by one diagram (lines 111-139), honouring the
page-name filter semantics `if (pageName && dName !== pageName) return`. -/
def diagramCells (pageName : Option String) (d : Diagram) : List Cell :=
  let skip : Bool := match pageName with
    | none => false
    | some p => !p.data.isEmpty && (d.name != some p)
  if skip then []
  else
    ((d.mxGraphModel.getD []).map (fun m =>
      (((selectModel m).root.getD []).map (cellsOfRoot d.name)).flatten)).flatten

/-- `extractAllCells(parsed, pageName)` (src/index.js lines 102-142). -/
def extractAllCells (doc : ParsedDoc) (pageName : Option String) : List Cell :=
  match doc.diagram with
  | none => []
  | some ds => (ds.map (diagramCells pageName)).flatten

/-- The external decode pipeline of `decompressDiagram` (lines 70-78):
`Buffer.from(·, 'base64')`, `inflateRaw`, `toString('utf-8')` and
`decodeURIComponent` are library calls, modelled as oracles; a throwing
step returns `none`, which the `try/catch` converts into the `null`
result. -/
structure DecodeEnv where
  base64Decode : String → Option (List Nat)
  inflateRaw : List Nat → Option (List Nat)
  utf8 : List Nat → String
  percentDecode : String → Option String

/-- `decompressDiagram(encoded)` (src/index.js lines 70-78): the three
fallible steps chained inside a `try/catch` that returns `null` on any
failure — the function itself is total and never propagates an
exception. -/
def decompressDiagram (env : DecodeEnv) (encoded : String) : Option String :=
  match env.base64Decode encoded with
  | none => none
  | some decoded =>
    match env.inflateRaw decoded with
    | none => none
    | some inflated => env.percentDecode (env.utf8 inflated)

/-- Lines 90-94: the freshly parsed inner document is wrapped as the
diagram's `mxGraphModel` array; when the inner document nests a
`mxGraphModel` object and itself lacks `root`, the nested object is used. -/
def rewrapInner (inner : ModelNode) : List ModelNode :=
  match inner.root, inner.sub with
  | none, some m => [m]
  | _, _ => [inner]

/-- The per-diagram body of `parseDiagramXml`'s loop (lines 85-97).
`xmlParse` is the xml2js oracle: `Except.error` is a rejected promise,
which the source does not catch here. -/
def stepDiagram (env : DecodeEnv) (xmlParse : String → Except String ModelNode)
    (d : Diagram) : Except String Diagram :=
  match d.mxGraphModel with
  | some _ => Except.ok d
  | none =>
    match d.content with
    | none => Except.ok d
    | some txt =>
      if (strTrim txt).data.isEmpty then Except.ok d
      else
        match decompressDiagram env (strTrim txt) with
        | none => Except.ok d
        | some xml =>
          match xmlParse xml with
          | Except.error e => Except.error e
          | Except.ok inner => Except.ok { d with mxGraphModel := some (rewrapInner inner) }

/-- The `for (const diagram of ...)` loop of `parseDiagramXml`: the first
rejected inner parse aborts the whole request. -/
def stepDiagrams (env : DecodeEnv) (xmlParse : String → Except String ModelNode) :
    List Diagram → Except String (List Diagram)
  | [] => Except.ok []
  | d :: ds =>
    match stepDiagram env xmlParse d with
    | Except.error e => Except.error e
    | Except.ok d' =>
      match stepDiagrams env xmlParse ds with
      | Except.error e => Except.error e
      | Except.ok ds' => Except.ok (d' :: ds')

/-- `parseDiagramXml(parsed)` (src/index.js lines 82-100). -/
def parseDiagramXml (env : DecodeEnv) (xmlParse : String → Except String ModelNode)
    (doc : ParsedDoc) : Except String ParsedDoc :=
  match doc.diagram with
  | none => Except.ok doc
  | some ds =>
    match stepDiagrams env xmlParse ds with
    | Except.error e => Except.error e
    | Except.ok ds' => Except.ok ⟨some ds'⟩

/-- The node record built for one cell by the first loop of
`buildHierarchy` (src/index.js lines 146-162).  The `children` array built
by the second loop only appends parent→child links and is not consulted by
any claim, so it is not carried on the node. -/
structure Node where
  id : String
  text : String
  type : String
  parent : Option String
  isEdge : Bool
  source : Option String
  target : Option String
  style : Option String
  page : Option String
  link : Option String
deriving DecidableEq

/-- Lines 148-160: the object stored in `idMap[c.id]`. -/
def mkNode (c : Cell) : Node :=
  { id := jsOrStr c.id ""
  , text := stripHtml c.value
  , type := detectType c.style
  , parent := c.parent
  , isEdge := (c.edge == some "1") || optTruthy c.source
  , source := c.source
  , target := c.target
  , style := c.style
  , page := c.page
  , link := match c.customAttrs with
      | some u => u.link
      | none => none }

/-- JS object-key update `m[k] = v`: replace in place when the key exists,
append otherwise (string keys keep their original position on overwrite). -/
def assocUpd (m : List (String × Node)) (k : String) (v : Node) : List (String × Node) :=
  match m with
  | [] => [(k, v)]
  | (k', v') :: t => if k' = k then (k, v) :: t else (k', v') :: assocUpd t k v

/-- JS object lookup `m[k]`. -/
def lookupAssoc (m : List (String × Node)) (k : String) : Option Node :=
  match m with
  | [] => none
  | (k', v) :: t => if k' = k then some v else lookupAssoc t k

/-- One iteration of the first loop of `buildHierarchy` (lines 146-161):
`if (c.id) idMap[c.id] = {...}` — insert the node when the id is truthy. -/
def buildStep (m : List (String × Node)) (c : Cell) : List (String × Node) :=
  match c.id with
  | some i => if i.data.isEmpty then m else assocUpd m i (mkNode c)
  | none => m

/-- The `idMap` built by `buildHierarchy` (lines 145-162): one entry per
cell with a truthy id, a later same-id cell overwriting an earlier one. -/
def buildIdMap (cells : List Cell) : List (String × Node) :=
  cells.foldl buildStep []

/-- Keys of the id map. -/
def keysOf (m : List (String × Node)) : List String := m.map Prod.fst

/-- The non-empty ids carried by a cell list, in order, duplicates kept. -/
def idsOfCells (cells : List Cell) : List String :=
  (cells.filter (fun c => optTruthy c.id)).map (fun c => jsOrStr c.id "")

/-- The last cell of the list carrying the non-empty id `k` — the claim-side
description of which cell wins an id collision. -/
def lastMatch (k : String) : List Cell → Option Cell
  | [] => none
  | c :: cs =>
    match lastMatch k cs with
    | some c' => some c'
    | none => if optTruthy c.id && (c.id == some k) then some c else none

/-- Claim C7's first class: a node whose parent is absent, unresolvable in
the id map, or a canonical root sentinel `'0'`/`'1'`. -/
def isTopLevelB (m : List (String × Node)) (n : Node) : Bool :=
  match n.parent with
  | none => true
  | some p => (p == "0") || (p == "1") || (lookupAssoc m p).isNone

/-- Claim C7's second class: a node with a resolvable non-root parent. -/
def hasResolvableNonRootParentB (m : List (String × Node)) (n : Node) : Bool :=
  match n.parent with
  | none => false
  | some p => !(p == "0") && !(p == "1") && (lookupAssoc m p).isSome

/-- The claim-side edge predicate: explicit edge flag `'1'` or a non-empty
source reference. -/
def specIsEdge (c : Cell) : Bool := (c.edge == some "1") || optTruthy c.source

/-- Line 267's text filter `c.value && stripHtml(c.value).length > 0`. -/
def hasTextB (c : Cell) : Bool := optTruthy c.value && !(stripHtml c.value).data.isEmpty

/-- `getDiagramOverview`'s connection filter (line 268):
`allCells.filter(c => c.edge === '1' || c.source)`. -/
def overviewEdges (cells : List Cell) : List Cell :=
  cells.filter (fun c => (c.edge == some "1") || optTruthy c.source)

/-- `parseTextContent`'s edge marking (line 346):
`isEdge: c.edge === '1' || !!c.source`. -/
def textItemIsEdge (c : Cell) : Bool := (c.edge == some "1") || optTruthy c.source

/-- `parseComponents`'s filter (line 299):
`c.value && stripHtml(c.value).length > 0 && c.edge !== '1' && !c.source`. -/
def componentKeep (c : Cell) : Bool :=
  hasTextB c && (c.edge != some "1") && !optTruthy c.source

/-- Endpoint display-name resolution of `parseRelationships` (lines
392-395): `(src && src.text) ? src.text.substring(0, 50) : (r.source || '?')`. -/
def relEndpointName (m : List (String × Node)) (ref : Option String) : String :=
  let src := match ref with
    | some p => lookupAssoc m p
    | none => none
  match src with
  | some n => if n.text.data.isEmpty then jsOrStr ref "?" else ⟨n.text.data.take 50⟩
  | none => jsOrStr ref "?"

/-- Endpoint display-name resolution of `renderFullDiagram`'s edge section
(lines 226-229): `(src && src.text) || e.source || '?'` (the 50-character
truncation there happens later, at print time). -/
def renderEndpointName (m : List (String × Node)) (ref : Option String) : String :=
  let src := match ref with
    | some p => lookupAssoc m p
    | none => none
  match src with
  | some n => if n.text.data.isEmpty then jsOrStr ref "?" else n.text
  | none => jsOrStr ref "?"

/-- Concrete page for the C7 witness: the two canonical root cells, two
shapes under them, one shape with a resolvable non-root parent, and one
shape with an unresolvable parent. -/
def c7cells : List Cell :=
  [ ⟨some "0", none, none, none, none, none, none, some "P", none⟩
  , ⟨some "1", none, none, some "0", none, none, none, some "P", none⟩
  , ⟨some "a", some "A", none, some "1", none, none, none, some "P", none⟩
  , ⟨some "b", some "B", none, some "a", none, none, none, some "P", none⟩
  , ⟨some "c", some "C", none, some "zz", none, none, none, some "P", none⟩ ]

/-- Two cells sharing the id `"x"`: the id map keeps a single node. -/
def dupCells : List Cell :=
  [ ⟨some "x", some "First", none, none, none, none, none, some "P", none⟩
  , ⟨some "x", some "Second", none, none, none, none, none, some "P", none⟩ ]

/-- A two-page document in document order: page `"A"` holds the shape
`"Alpha"` with id `"x"` and an edge `"e"` whose source is `"x"`; page
`"B"` holds another shape `"Beta"` with the same id `"x"`. -/
def c9cells : List Cell :=
  [ ⟨some "x", some "Alpha", none, none, none, none, none, some "A", none⟩
  , ⟨some "e", none, none, none, some "1", some "x", some "x", some "A", none⟩
  , ⟨some "x", some "Beta", none, none, none, none, none, some "B", none⟩ ]

/-- An oracle environment whose decode pipeline succeeds and yields text
that is not well-formed XML. -/
def cexDecodeEnv : DecodeEnv :=
  { base64Decode := fun _ => some []
  , inflateRaw := fun b => some b
  , utf8 := fun _ => ""
  , percentDecode := fun _ => some "not xml" }

/-- The xml2js oracle rejecting the malformed fragment. -/
def cexXmlParse : String → Except String ModelNode :=
  fun _ => Except.error "Non-whitespace before first tag."

/-- A one-page document whose page has no inline graph model and a
non-empty compressed payload. -/
def cexDoc : ParsedDoc := ⟨some [⟨some "Page1", some "AAAA", none⟩]⟩

/-- An oracle environment whose base64 step throws (caught by the
decompressor's `try/catch`). -/
def wFailEnv : DecodeEnv :=
  { base64Decode := fun _ => none
  , inflateRaw := fun b => some b
  , utf8 := fun _ => ""
  , percentDecode := fun s => some s }

/-- An xml2js oracle; never reached in the witness. -/
def wXmlParse : String → Except String ModelNode :=
  fun _ => Except.error "unused"

/-- A page carrying only a corrupt compressed payload. -/
def wCorruptDiagram : Diagram := ⟨some "P", some "corruptPayload", none⟩

theorem listHas_nil_of_ne {n : List Char} (hn : n ≠ []) : listHas n [] = false := by
  cases n with
  | nil => exact absurd rfl hn
  | cons a t => rfl

theorem listHas_nil (l : List Char) : listHas [] l = true := by
  induction l with
  | nil => rfl
  | cons c t ih => simp [listHas, List.isPrefixOf]

theorem listHas_of_isPrefixOf {n l : List Char} (h : n.isPrefixOf l = true) :
    listHas n l = true := by
  cases l with
  | nil =>
    cases n with
    | nil => rfl
    | cons a t => simp [List.isPrefixOf] at h
  | cons c t => simp [listHas, h]

theorem isPrefixOf_append_mono {n l₁ : List Char} (l₂ : List Char)
    (h : n.isPrefixOf l₁ = true) : n.isPrefixOf (l₁ ++ l₂) = true := by
  induction n generalizing l₁ with
  | nil => simp [List.isPrefixOf]
  | cons a as ih =>
    cases l₁ with
    | nil => simp [List.isPrefixOf] at h
    | cons b bs =>
      simp only [List.isPrefixOf, Bool.and_eq_true, beq_iff_eq] at h
      simp only [List.cons_append, List.isPrefixOf, Bool.and_eq_true, beq_iff_eq]
      exact ⟨h.1, ih h.2⟩

theorem listHas_append_left {n l₁ : List Char} (l₂ : List Char)
    (h : listHas n l₁ = true) : listHas n (l₁ ++ l₂) = true := by
  induction l₁ with
  | nil =>
    have hn : n = [] := by
      cases n with
      | nil => rfl
      | cons a t => simp [listHas] at h
    subst hn
    exact listHas_nil (l₂)
  | cons c t ih =>
    simp only [listHas, Bool.or_eq_true] at h
    rcases h with h | h
    · have h2 := isPrefixOf_append_mono l₂ h
      simp only [List.cons_append] at h2 ⊢
      simp [listHas, h2]
    · simp [listHas, ih h]

theorem listHas_append_right {n : List Char} (l₁ : List Char) {l₂ : List Char}
    (h : listHas n l₂ = true) : listHas n (l₁ ++ l₂) = true := by
  induction l₁ with
  | nil => exact h
  | cons c t ih => simp [listHas, ih]

theorem isPrefixOf_split {c : Char} :
    ∀ {n l₁ l₂ : List Char}, c ∉ n → n.isPrefixOf (l₁ ++ c :: l₂) = true →
      n.isPrefixOf l₁ = true := by
  intro n
  induction n with
  | nil => intro l₁ l₂ _ _; simp [List.isPrefixOf]
  | cons a as ih =>
    intro l₁ l₂ hc h
    have hac : a ≠ c := fun he => hc (he ▸ List.mem_cons_self a as)
    have has : c ∉ as := fun hm => hc (List.mem_cons_of_mem a hm)
    cases l₁ with
    | nil =>
      simp only [List.nil_append, List.isPrefixOf, Bool.and_eq_true, beq_iff_eq] at h
      exact absurd h.1 hac
    | cons b bs =>
      simp only [List.cons_append, List.isPrefixOf, Bool.and_eq_true, beq_iff_eq] at h ⊢
      exact ⟨h.1, ih has h.2⟩

theorem listHas_middle {c : Char} {n : List Char} (hn : n ≠ []) (hc : c ∉ n)
    (l₁ l₂ : List Char) :
    listHas n (l₁ ++ c :: l₂) = true ↔ listHas n l₁ = true ∨ listHas n l₂ = true := by
  constructor
  · induction l₁ with
    | nil =>
      intro h
      simp only [List.nil_append, listHas, Bool.or_eq_true] at h
      rcases h with h | h
      · cases n with
        | nil => exact absurd rfl hn
        | cons a as =>
          simp only [List.isPrefixOf, Bool.and_eq_true, beq_iff_eq] at h
          exact absurd h.1 (fun he => hc (he ▸ List.mem_cons_self a as))
      · exact Or.inr h
    | cons b bs ih =>
      intro h
      simp only [List.cons_append, listHas, Bool.or_eq_true] at h
      rcases h with h | h
      · have hp : n.isPrefixOf ((b :: bs) ++ c :: l₂) = true := by
          simpa using h
        exact Or.inl (listHas_of_isPrefixOf (isPrefixOf_split hc hp))
      · rcases ih h with h2 | h2
        · exact Or.inl (by simp [listHas, h2])
        · exact Or.inr h2
  · intro h
    rcases h with h | h
    · exact listHas_append_left _ h
    · exact listHas_append_right l₁ (by simp [listHas, h])

theorem affix_isPrefixOf {c : Char} :
    ∀ {w t : List Char} (rest : List Char), c ∉ w → c ∉ t →
      ((w ++ [c]).isPrefixOf (t ++ c :: rest) = true ↔ w = t) := by
  intro w
  induction w with
  | nil =>
    intro t rest _ ht
    cases t with
    | nil => simp [List.isPrefixOf]
    | cons b bs =>
      have hcb : c ≠ b := fun he => ht (he ▸ List.mem_cons_self b bs)
      simp [List.isPrefixOf, hcb]
  | cons a as ih =>
    intro t rest hw ht
    have hac : a ≠ c := fun he => hw (he ▸ List.mem_cons_self a as)
    have hasw : c ∉ as := fun hm => hw (List.mem_cons_of_mem a hm)
    cases t with
    | nil =>
      simp [List.isPrefixOf, hac]
    | cons b bs =>
      have hbs : c ∉ bs := fun hm => ht (List.mem_cons_of_mem b hm)
      constructor
      · intro h
        have h' : (a == b && (as ++ [c]).isPrefixOf (bs ++ c :: rest)) = true := h
        simp only [Bool.and_eq_true, beq_iff_eq] at h'
        rw [h'.1, (ih rest hasw hbs).mp h'.2]
      · intro h
        injection h with h1 h2
        subst h1
        subst h2
        show (a == a && (as ++ [c]).isPrefixOf (as ++ c :: rest)) = true
        simp [(ih rest hasw hasw).mpr rfl]

theorem listHas_token_end {c : Char} {w : List Char} (hw : c ∉ w) :
    ∀ (t rest : List Char), c ∉ t →
      (listHas (w ++ [c]) (t ++ c :: rest) = true
        ↔ endsWith w t = true ∨ listHas (w ++ [c]) rest = true) := by
  intro t
  induction t with
  | nil =>
    intro rest _
    have hpre : (w ++ [c]).isPrefixOf ([] ++ c :: rest) = true ↔ w = [] :=
      affix_isPrefixOf rest hw (List.not_mem_nil c)
    simp only [List.nil_append] at hpre
    constructor
    · intro h
      simp only [List.nil_append, listHas, Bool.or_eq_true] at h
      rcases h with h | h
      · left
        have hwn := hpre.mp h
        subst hwn
        rfl
      · exact Or.inr h
    · intro h
      rcases h with h | h
      · have hwn : w = [] := by
          cases w with
          | nil => rfl
          | cons a as => simp [endsWith] at h
        subst hwn
        exact listHas_of_isPrefixOf (hpre.mpr rfl)
      · exact listHas_append_right [c] h
  | cons b bs ih =>
    intro rest ht
    have hbs : c ∉ bs := fun hm => ht (List.mem_cons_of_mem b hm)
    have hpre : (w ++ [c]).isPrefixOf ((b :: bs) ++ c :: rest) = true ↔ w = b :: bs :=
      affix_isPrefixOf rest hw ht
    constructor
    · intro h
      simp only [List.cons_append, listHas, Bool.or_eq_true] at h
      rcases h with h | h
      · left
        have hwt := hpre.mp (by simpa using h)
        simp [endsWith, hwt]
      · rcases (ih rest hbs).mp h with h2 | h2
        · exact Or.inl (by simp [endsWith, h2])
        · exact Or.inr h2
    · intro h
      rcases h with h | h
      · simp only [endsWith, Bool.or_eq_true, beq_iff_eq] at h
        rcases h with h | h
        · have hp := hpre.mpr h
          simp only [List.cons_append] at hp ⊢
          simp [listHas, hp]
        · have h2 := (ih rest hbs).mpr (Or.inl h)
          simp only [List.cons_append] at h2 ⊢
          simp [listHas, h2]
      · have h2 := (ih rest hbs).mpr (Or.inr h)
        simp only [List.cons_append] at h2 ⊢
        simp [listHas, h2]

theorem listHas_joinTok {c : Char} {n : List Char} (hn : n ≠ []) (hcn : c ∉ n) :
    ∀ (toks : List (List Char)), (∀ t ∈ toks, c ∉ t) →
      (listHas n (joinTok c toks) = true ↔ ∃ t ∈ toks, listHas n t = true) := by
  intro toks
  induction toks with
  | nil =>
    intro _
    simp only [joinTok]
    rw [listHas_nil_of_ne hn]
    simp
  | cons t ts ih =>
    intro hf
    have hcts : ∀ u ∈ ts, c ∉ u := fun u hu => hf u (List.mem_cons_of_mem t hu)
    simp only [joinTok]
    rw [listHas_middle hn hcn t (joinTok c ts), ih hcts]
    constructor
    · rintro (h | ⟨u, hu, hh⟩)
      · exact ⟨t, List.mem_cons_self t ts, h⟩
      · exact ⟨u, List.mem_cons_of_mem t hu, hh⟩
    · rintro ⟨u, hu, hh⟩
      rcases List.mem_cons.mp hu with rfl | hu'
      · exact Or.inl hh
      · exact Or.inr ⟨u, hu', hh⟩

theorem listHas_joinTok_end {c : Char} {w : List Char} (hw : c ∉ w) :
    ∀ (toks : List (List Char)), (∀ t ∈ toks, c ∉ t) →
      (listHas (w ++ [c]) (joinTok c toks) = true ↔ ∃ t ∈ toks, endsWith w t = true) := by
  intro toks
  induction toks with
  | nil =>
    intro _
    simp only [joinTok]
    have hne : w ++ [c] ≠ [] := by simp
    rw [listHas_nil_of_ne hne]
    simp
  | cons t ts ih =>
    intro hf
    have hct : c ∉ t := hf t (List.mem_cons_self t ts)
    have hcts : ∀ u ∈ ts, c ∉ u := fun u hu => hf u (List.mem_cons_of_mem t hu)
    simp only [joinTok]
    rw [listHas_token_end hw t (joinTok c ts) hct, ih hcts]
    constructor
    · rintro (h | ⟨u, hu, hh⟩)
      · exact ⟨t, List.mem_cons_self t ts, h⟩
      · exact ⟨u, List.mem_cons_of_mem t hu, hh⟩
    · rintro ⟨u, hu, hh⟩
      rcases List.mem_cons.mp hu with rfl | hu'
      · exact Or.inl hh
      · exact Or.inr ⟨u, hu', hh⟩

theorem boolExt {a b : Bool} (h : (a = true) ↔ (b = true)) : a = b := by
  cases a <;> cases b <;> simp_all

theorem listHas_joinTok_perm {n : List Char} (hn : n ≠ []) (hcn : (';' : Char) ∉ n)
    {LL LL' : List (List Char)} (hperm : List.Perm LL LL')
    (hf : ∀ t ∈ LL, (';' : Char) ∉ t) :
    listHas n (joinTok ';' LL) = listHas n (joinTok ';' LL') := by
  have hf' : ∀ t ∈ LL', (';' : Char) ∉ t := fun t ht => hf t (hperm.mem_iff.mpr ht)
  apply boolExt
  rw [listHas_joinTok hn hcn LL hf, listHas_joinTok hn hcn LL' hf']
  constructor
  · rintro ⟨t, ht, hh⟩; exact ⟨t, hperm.mem_iff.mp ht, hh⟩
  · rintro ⟨t, ht, hh⟩; exact ⟨t, hperm.mem_iff.mpr ht, hh⟩

theorem endsWith_joinTok_perm {w : List Char} (hw : (';' : Char) ∉ w)
    {LL LL' : List (List Char)} (hperm : List.Perm LL LL')
    (hf : ∀ t ∈ LL, (';' : Char) ∉ t) :
    listHas (w ++ [';']) (joinTok ';' LL) = listHas (w ++ [';']) (joinTok ';' LL') := by
  have hf' : ∀ t ∈ LL', (';' : Char) ∉ t := fun t ht => hf t (hperm.mem_iff.mpr ht)
  apply boolExt
  rw [listHas_joinTok_end hw LL hf, listHas_joinTok_end hw LL' hf']
  constructor
  · rintro ⟨t, ht, hh⟩; exact ⟨t, hperm.mem_iff.mp ht, hh⟩
  · rintro ⟨t, ht, hh⟩; exact ⟨t, hperm.mem_iff.mpr ht, hh⟩

theorem lowerc_joinTok (LL : List (List Char)) :
    lowerc (joinTok ';' LL) = joinTok ';' (LL.map lowerc) := by
  induction LL with
  | nil => rfl
  | cons t ts ih =>
    show lowerc (t ++ ';' :: joinTok ';' ts) = lowerc t ++ ';' :: joinTok ';' (ts.map lowerc)
    rw [← ih]
    simp only [lowerc, List.map_append, List.map_cons]
    rw [show Char.toLower ';' = ';' from by decide]

theorem append_cons_not_isEmpty (l₁ : List Char) (c : Char) (l₂ : List Char) :
    (l₁ ++ c :: l₂).isEmpty = false := by
  cases l₁ <;> rfl

theorem detectType_styleOfTokens (x : String) (xs : List String) :
    detectType (some (styleOfTokens (x :: xs)))
      = detectTypeCore (joinTok ';' ((x :: xs).map (fun v => lowerc v.data))) := by
  have h1 : (styleOfTokens (x :: xs)).data = joinTok ';' ((x :: xs).map String.data) := rfl
  have h2 : (joinTok ';' ((x :: xs).map String.data)).isEmpty = false := by
    show (x.data ++ ';' :: joinTok ';' (xs.map String.data)).isEmpty = false
    exact append_cons_not_isEmpty _ _ _
  have h3 : lowerc (joinTok ';' ((x :: xs).map String.data))
      = joinTok ';' ((x :: xs).map (fun v => lowerc v.data)) := by
    rw [lowerc_joinTok, List.map_map]
    rfl
  simp only [detectType, h1, h2, Bool.false_eq_true, if_false, h3]

theorem detectTypeCore_joinTok_perm {LL LL' : List (List Char)}
    (hperm : List.Perm LL LL') (hf : ∀ t ∈ LL, (';' : Char) ∉ t) :
    detectTypeCore (joinTok ';' LL) = detectTypeCore (joinTok ';' LL') := by
  have e01 := listHas_joinTok_perm (n := "swimlane".data) (by decide) (by decide) hperm hf
  have e02 := listHas_joinTok_perm (n := "rhombus".data) (by decide) (by decide) hperm hf
  have e03 := listHas_joinTok_perm (n := "ellipse".data) (by decide) (by decide) hperm hf
  have e04 := listHas_joinTok_perm (n := "double".data) (by decide) (by decide) hperm hf
  have e05 := listHas_joinTok_perm (n := "cylinder".data) (by decide) (by decide) hperm hf
  have e06 := listHas_joinTok_perm (n := "cloud".data) (by decide) (by decide) hperm hf
  have e07 := listHas_joinTok_perm (n := "shape=process".data) (by decide) (by decide) hperm hf
  have e08 := listHas_joinTok_perm (n := "shape=mxgraph.bpmn".data) (by decide) (by decide) hperm hf
  have e09 := listHas_joinTok_perm (n := "shape=image".data) (by decide) (by decide) hperm hf
  have e10 := listHas_joinTok_perm (n := "shape=hexagon".data) (by decide) (by decide) hperm hf
  have e11 := listHas_joinTok_perm (n := "shape=parallelogram".data) (by decide) (by decide) hperm hf
  have e12 := listHas_joinTok_perm (n := "shape=document".data) (by decide) (by decide) hperm hf
  have e13 := listHas_joinTok_perm (n := "shape=callout".data) (by decide) (by decide) hperm hf
  have e14 := listHas_joinTok_perm (n := "shape=note".data) (by decide) (by decide) hperm hf
  have e15 : listHas "text;".data (joinTok ';' LL) = listHas "text;".data (joinTok ';' LL') := by
    have e : "text;".data = "text".data ++ [';'] := by decide
    rw [e]
    exact endsWith_joinTok_perm (w := "text".data) (by decide) hperm hf
  have e16 := listHas_joinTok_perm (n := "group".data) (by decide) (by decide) hperm hf
  have e17 := listHas_joinTok_perm (n := "rounded".data) (by decide) (by decide) hperm hf
  simp only [detectTypeCore, e01, e02, e03, e04, e05, e06, e07, e08, e09, e10,
    e11, e12, e13, e14, e15, e16, e17]

theorem detectTypeCore_eq_firstMatch (l : List Char) :
    detectTypeCore l = firstMatch "shape" shapeRules l := rfl

theorem detectRelCore_eq_firstMatch (l : List Char) :
    detectRelCore l = firstMatch "flow" relRules l := rfl

/-- C3: shape classification is the ordered first-match over the precedence
list swimlane, decision, start/end, ellipse, database, cloud, process, bpmn,
icon, hexagon, parallelogram, document, callout, note, text, group,
rounded-rectangle; a style containing both a swimlane and a rhombus token
classifies as swimlane; an absent style yields the fallback `"shape"`. -/
theorem shape_classification_first_match :
    (∀ s : String, detectType (some s) = firstMatch "shape" shapeRules (lowerc s.data))
    ∧ (∀ s : String, listHas "swimlane".data (lowerc s.data) = true →
        listHas "rhombus".data (lowerc s.data) = true →
        detectType (some s) = "swimlane")
    ∧ detectType none = "shape" := by
  refine ⟨?_, ?_, rfl⟩
  · intro s
    cases hd : s.data with
    | nil =>
      simp only [detectType, hd, List.isEmpty_nil, if_true]
      decide
    | cons a t =>
      simp only [detectType, hd, List.isEmpty_cons, if_false]
      exact detectTypeCore_eq_firstMatch _
  · intro s h1 h2
    cases hd : s.data with
    | nil =>
      rw [hd] at h1
      exact absurd h1 (by decide)
    | cons a t =>
      rw [hd] at h1
      simp only [detectType, hd, List.isEmpty_cons, if_false, detectTypeCore, h1, if_true]
      rfl

/-- C3 witness: a concrete style carrying both tokens classifies as
swimlane via the theorem. -/
theorem shape_classification_first_match_w :
    detectType (some "rhombus;swimlane;html=1") = "swimlane" :=
  shape_classification_first_match.2.1 "rhombus;swimlane;html=1" (by decide) (by decide)

/-- C4 (amended): relationship classification is the ordered first-match
dashed, inheritance, block-arrow flow, composition, dashed-open
async/message, aggregation; the fallback — reached for an absent style and
for a style matching no rule — is always `"flow"` (never `"association"`). -/
theorem relation_classification_first_match :
    (∀ s : String, detectRelationType (some s) = firstMatch "flow" relRules s.data)
    ∧ detectRelationType none = "flow" := by
  refine ⟨?_, rfl⟩
  intro s
  cases hd : s.data with
  | nil =>
    simp only [detectRelationType, hd, List.isEmpty_nil, if_true]
    decide
  | cons a t =>
    simp only [detectRelationType, hd, List.isEmpty_cons, if_false]
    exact detectRelCore_eq_firstMatch _

/-- C4 counterexample: a plain edge style matching none of the rule tokens
("no further signal") classifies as `"flow"`, not as the `"association"`
fallback the claim describes — the code never produces `"association"`. -/
theorem relation_fallback_is_flow_cex :
    detectRelationType (some "html=1") = "flow"
    ∧ detectRelationType (some "html=1") ≠ "association" := by
  constructor
  · decide
  · decide

/-- C8 (amended): shape classification is invariant under permutation of the
style string's tokens when the style is assembled in the drawio convention —
every (semicolon-free) token followed by its terminating semicolon.  (As
stated over plain semicolon-separated strings the claim fails, because the
`text` rule matches the literal substring `"text;"` and therefore notices
whether the `text` token is last; see the counterexample.) -/
theorem detectType_token_perm_invariant (toks toks' : List String)
    (hp : List.Perm toks toks')
    (hfree : ∀ t ∈ toks, (';' : Char) ∉ lowerc t.data) :
    detectType (some (styleOfTokens toks)) = detectType (some (styleOfTokens toks')) := by
  cases toks with
  | nil =>
    have h0 : toks' = [] := List.Perm.eq_nil hp.symm
    subst h0
    rfl
  | cons t ts =>
    cases toks' with
    | nil => exact absurd (List.Perm.eq_nil hp) (by simp)
    | cons u us =>
      rw [detectType_styleOfTokens t ts, detectType_styleOfTokens u us]
      apply detectTypeCore_joinTok_perm
      · exact hp.map (fun v => lowerc v.data)
      · intro l hl
        rcases List.mem_map.mp hl with ⟨v, hv, rfl⟩
        exact hfree v hv

/-- C8 witness: swapping two semicolon-terminated tokens does not change
the classification. -/
theorem detectType_token_perm_invariant_w :
    detectType (some (styleOfTokens ["a=1", "rounded"]))
      = detectType (some (styleOfTokens ["rounded", "a=1"])) :=
  detectType_token_perm_invariant ["a=1", "rounded"] ["rounded", "a=1"]
    (List.Perm.swap "rounded" "a=1" []) (by decide)

/-- C8 counterexample: `"text;foo"` and `"foo;text"` are the
semicolon-separated joins of the token lists `["text", "foo"]` and
`["foo", "text"]` — permutations of the same token multiset — yet the
classifier returns `"text"` for the first and the fallback `"shape"` for
the second, because the `text` rule looks for the literal substring
`"text;"`. -/
theorem detectType_token_order_cex :
    List.Perm ["text", "foo"] ["foo", "text"]
    ∧ styleSep ["text", "foo"] = "text;foo"
    ∧ styleSep ["foo", "text"] = "foo;text"
    ∧ detectType (some (styleSep ["text", "foo"])) = "text"
    ∧ detectType (some (styleSep ["foo", "text"])) = "shape" := by
  refine ⟨List.Perm.swap "foo" "text" [], ?_, ?_, ?_, ?_⟩ <;> decide

/-- C2 (amended): for a wrapped cell, the structural attributes (style,
parent, edge flag, source, target) come exclusively from the nested direct
cell, overriding any same-named outer attribute; the id falls back to the
outer container's id when the nested cell has none; the hyperlink is kept
in the separate `customAttrs` field (surfaced as the node's `link`) and is
never merged into `style`; and the value is the outer label if non-empty,
else the outer value if non-empty, else the empty string — except that a
`value` attribute on the nested cell overrides that computation, because
the nested attributes are spread last into the object literal. -/
theorem wrapped_cell_merge (dName : Option String) (a : UOAttrs) (ia : MxAttrs) :
    (uoToCell dName ⟨a, some ia⟩).value
        = some (match ia.value with
          | some v => v
          | none => jsOrStr a.label (jsOrStr a.value ""))
    ∧ (uoToCell dName ⟨a, some ia⟩).style = ia.style
    ∧ (uoToCell dName ⟨a, some ia⟩).parent = ia.parent
    ∧ (uoToCell dName ⟨a, some ia⟩).edge = ia.edge
    ∧ (uoToCell dName ⟨a, some ia⟩).source = ia.source
    ∧ (uoToCell dName ⟨a, some ia⟩).target = ia.target
    ∧ (uoToCell dName ⟨a, some ia⟩).id
        = (match ia.id with
          | some i => some i
          | none => a.id)
    ∧ (mkNode (uoToCell dName ⟨a, some ia⟩)).link = a.link :=
  ⟨rfl, rfl, rfl, rfl, rfl, rfl, rfl, rfl⟩

/-- C2 counterexample: a wrapper with label `"L"` around a nested cell
carrying its own `value="inner"` attribute normalizes to value `"inner"`,
not to the outer label `"L"` the claim requires — the spread of the nested
attributes overrides the computed value. -/
theorem wrapped_cell_value_cex :
    (uoToCell none ⟨⟨some "u1", some "L", none, none, none, none, none, none, none⟩,
        some ⟨none, some "inner", none, none, none, none, none⟩⟩).value = some "inner"
    ∧ (some "inner" : Option String) ≠ some "L" := by
  exact ⟨rfl, by decide⟩

/-- C5: every consumer classifies a cell as an edge by the same permissive
rule — explicit edge flag `'1'` or a non-empty source reference: the
hierarchy node's `isEdge` flag (which also drives the relationship
listing's filter), the overview's connection filter, the text inventory's
edge marking, and, complemented, the component listing's filter; in
particular a cell whose edge flag was omitted but which carries a source
reference is an edge. -/
theorem edge_detection_permissive (c : Cell) (cells : List Cell) :
    (mkNode c).isEdge = specIsEdge c
    ∧ overviewEdges cells = cells.filter specIsEdge
    ∧ textItemIsEdge c = specIsEdge c
    ∧ componentKeep c = (hasTextB c && !specIsEdge c)
    ∧ (c.edge = none → optTruthy c.source = true → (mkNode c).isEdge = true) := by
  refine ⟨rfl, rfl, rfl, ?_, ?_⟩
  · cases h1 : hasTextB c <;> cases h2 : (c.edge == some "1") <;>
      cases h3 : optTruthy c.source <;>
      simp [componentKeep, specIsEdge, h1, h2, h3, bne]
  · intro h1 h2
    simp [mkNode, h1, h2]

/-- C5 witness: a cell with no edge flag but a source reference is
classified as an edge. -/
theorem edge_detection_permissive_w :
    (mkNode ⟨some "e1", none, none, none, none, some "s1", none, none, none⟩).isEdge = true :=
  (edge_detection_permissive
    ⟨some "e1", none, none, none, none, some "s1", none, none, none⟩ []).2.2.2.2
    rfl (by decide)

/-- C10: a cell with a target reference but no source reference and an edge
flag other than `'1'` is never treated as an edge: its node's `isEdge` is
false (so the relationship listing, which filters on `isEdge`, excludes
it), it is excluded from the overview's connection filter, the text
inventory does not mark it as an edge, and the component listing's filter
keeps it exactly when it has non-empty text. -/
theorem target_only_never_edge (c : Cell) (cells : List Cell)
    (_ht : optTruthy c.target = true)
    (hs : optTruthy c.source = false)
    (he : c.edge ≠ some "1") :
    (mkNode c).isEdge = false
    ∧ c ∉ overviewEdges cells
    ∧ textItemIsEdge c = false
    ∧ componentKeep c = hasTextB c := by
  have hb : (c.edge == some "1") = false := by
    cases hE : c.edge == some "1"
    · rfl
    · exact absurd (eq_of_beq hE) he
  refine ⟨?_, ?_, ?_, ?_⟩
  · simp [mkNode, hb, hs]
  · intro hmem
    have h2 := (List.mem_filter.mp hmem).2
    simp [hb, hs] at h2
  · simp [textItemIsEdge, hb, hs]
  · simp [componentKeep, bne, hb, hs]

/-- C10 witness: a cell with only a target reference and no edge flag is
not an edge. -/
theorem target_only_never_edge_w :
    (mkNode ⟨some "g1", some "G", none, none, none, none, some "t9", some "P", none⟩).isEdge
      = false :=
  (target_only_never_edge
    ⟨some "g1", some "G", none, none, none, none, some "t9", some "P", none⟩ []
    (by decide) (by decide) (by decide)).1

/-- C6: when an edge endpoint references an id that does not exist in the
built id map, both the relationship listing's and the full render's
endpoint resolution fall back to the raw id string; both resolutions are
total functions of the map and the reference, so the operation cannot fail
on the unresolved reference. -/
theorem unresolved_endpoint_raw_id (cells : List Cell) (p : String)
    (hp : p.data.isEmpty = false)
    (hmiss : lookupAssoc (buildIdMap cells) p = none) :
    relEndpointName (buildIdMap cells) (some p) = p
    ∧ renderEndpointName (buildIdMap cells) (some p) = p := by
  constructor
  · simp [relEndpointName, hmiss, jsOrStr, hp]
  · simp [renderEndpointName, hmiss, jsOrStr, hp]

/-- C6 witness: an endpoint id absent from an (empty) id map resolves to
the raw id string. -/
theorem unresolved_endpoint_raw_id_w :
    relEndpointName (buildIdMap []) (some "x1") = "x1" :=
  (unresolved_endpoint_raw_id [] "x1" rfl rfl).1

theorem countP_partition (P : Node → Bool) (l : List Node) :
    l.countP P + l.countP (fun a => !P a) = l.length := by
  induction l with
  | nil => rfl
  | cons a t ih =>
    cases h : P a <;> simp [List.countP_cons, h] <;> omega

theorem resolvable_eq_not_top (m : List (String × Node)) (n : Node) :
    hasResolvableNonRootParentB m n = !isTopLevelB m n := by
  cases hp : n.parent with
  | none => simp [isTopLevelB, hasResolvableNonRootParentB, hp]
  | some p =>
    cases hl : lookupAssoc m p <;>
      simp [isTopLevelB, hasResolvableNonRootParentB, hp, hl, Bool.not_or]

theorem assocUpd_length_not_mem (m : List (String × Node)) (k : String) (v : Node)
    (h : k ∉ keysOf m) : (assocUpd m k v).length = m.length + 1 := by
  induction m with
  | nil => rfl
  | cons e t ih =>
    obtain ⟨k', v'⟩ := e
    have hk : k' ≠ k := by
      intro he
      subst he
      exact h (List.mem_cons_self _ _)
    have h' : k ∉ keysOf t := by
      intro hm
      exact h (List.mem_cons_of_mem _ hm)
    have hstep : assocUpd ((k', v') :: t) k v = (k', v') :: assocUpd t k v := by
      simp [assocUpd, hk]
    rw [hstep, List.length_cons, ih h', List.length_cons]

theorem keysOf_assocUpd_not_mem (m : List (String × Node)) (k : String) (v : Node)
    (h : k ∉ keysOf m) : keysOf (assocUpd m k v) = keysOf m ++ [k] := by
  induction m with
  | nil => rfl
  | cons e t ih =>
    obtain ⟨k', v'⟩ := e
    have hk : k' ≠ k := by
      intro he
      subst he
      exact h (List.mem_cons_self _ _)
    have h' : k ∉ keysOf t := by
      intro hm
      exact h (List.mem_cons_of_mem _ hm)
    have hstep : assocUpd ((k', v') :: t) k v = (k', v') :: assocUpd t k v := by
      simp [assocUpd, hk]
    rw [hstep]
    show k' :: keysOf (assocUpd t k v) = (k' :: keysOf t) ++ [k]
    rw [ih h']
    rfl

theorem buildIdMap_go_length :
    ∀ (cells : List Cell) (m : List (String × Node)),
      (∀ i ∈ idsOfCells cells, i ∉ keysOf m) →
      (idsOfCells cells).Nodup →
      (cells.foldl buildStep m).length = m.length + (idsOfCells cells).length := by
  intro cells
  induction cells with
  | nil =>
    intro m _ _
    simp [idsOfCells]
  | cons c cs ih =>
    intro m hdisj hnd
    by_cases hc : optTruthy c.id = true
    · obtain ⟨i, hi⟩ : ∃ i, c.id = some i := by
        cases hcid : c.id with
        | none => rw [hcid] at hc; simp [optTruthy] at hc
        | some i => exact ⟨i, rfl⟩
      have hne : i.data.isEmpty = false := by
        rw [hi] at hc
        simpa [optTruthy] using hc
      have hstep : buildStep m c = assocUpd m i (mkNode c) := by
        simp [buildStep, hi, hne]
      have hids : idsOfCells (c :: cs) = i :: idsOfCells cs := by
        have hci : optTruthy (some i) = true := hi ▸ hc
        simp only [idsOfCells, List.filter_cons, hi, hci, if_true, List.map_cons]
        congr 1
        simp [jsOrStr, hne]
      have hiK : i ∉ keysOf m := hdisj i (by rw [hids]; exact List.mem_cons_self _ _)
      have hnodup := List.nodup_cons.mp (hids ▸ hnd)
      have hdisj' : ∀ j ∈ idsOfCells cs, j ∉ keysOf (assocUpd m i (mkNode c)) := by
        intro j hj
        rw [keysOf_assocUpd_not_mem m i (mkNode c) hiK]
        intro hmem
        rcases List.mem_append.mp hmem with hmem | hmem
        · exact hdisj j (by rw [hids]; exact List.mem_cons_of_mem _ hj) hmem
        · have hji : j = i := by simpa using hmem
          exact hnodup.1 (hji ▸ hj)
      calc (List.foldl buildStep m (c :: cs)).length
          = (List.foldl buildStep (assocUpd m i (mkNode c)) cs).length := by
            simp [List.foldl_cons, hstep]
        _ = (assocUpd m i (mkNode c)).length + (idsOfCells cs).length :=
            ih _ hdisj' hnodup.2
        _ = m.length + 1 + (idsOfCells cs).length := by
            rw [assocUpd_length_not_mem m i (mkNode c) hiK]
        _ = m.length + (idsOfCells (c :: cs)).length := by
            rw [hids]
            simp [List.length_cons]
            omega
    · have hcf : optTruthy c.id = false := by
        cases h : optTruthy c.id
        · rfl
        · exact absurd h hc
      have hstep : buildStep m c = m := by
        cases hcid : c.id with
        | none => simp [buildStep, hcid]
        | some i =>
          have hie : i.data.isEmpty = true := by
            rw [hcid] at hcf
            simpa [optTruthy] using hcf
          simp [buildStep, hcid, hie]
      have hids : idsOfCells (c :: cs) = idsOfCells cs := by
        simp [idsOfCells, List.filter_cons, hcf]
      rw [hids] at hdisj hnd ⊢
      simp only [List.foldl_cons, hstep]
      exact ih m hdisj hnd

theorem buildIdMap_length (cells : List Cell) (hnd : (idsOfCells cells).Nodup) :
    (buildIdMap cells).length = (idsOfCells cells).length := by
  have h := buildIdMap_go_length cells [] (by intro i _ hmem; simp [keysOf] at hmem) hnd
  simpa [buildIdMap] using h

/-- C7 (amended): over the id map that `buildHierarchy` builds from a
page's cells, every node is either top-level (parent absent, unresolvable,
or a canonical root sentinel `'0'`/`'1'`) or has a resolvable non-root
parent, and the two counts sum to the number of cells with a non-empty id
— provided those ids are pairwise distinct.  (Without distinctness the sum
equals the number of distinct ids, not the cell count: a later same-id
cell overwrites the earlier node; see the counterexample.) -/
theorem hierarchy_partition_count (cells : List Cell)
    (hnd : (idsOfCells cells).Nodup) :
    ((buildIdMap cells).map Prod.snd).countP (isTopLevelB (buildIdMap cells))
      + ((buildIdMap cells).map Prod.snd).countP
          (hasResolvableNonRootParentB (buildIdMap cells))
      = (cells.filter (fun c => optTruthy c.id)).length := by
  have h1 : hasResolvableNonRootParentB (buildIdMap cells)
      = fun n => !isTopLevelB (buildIdMap cells) n :=
    funext (resolvable_eq_not_top (buildIdMap cells))
  rw [h1, countP_partition, List.length_map, buildIdMap_length cells hnd]
  simp [idsOfCells]

/-- C7 witness: on a page with the two root cells, two sentinel-parented
shapes, one properly nested shape and one dangling-parent shape, the two
classes sum to the five cells with non-empty ids. -/
theorem hierarchy_partition_count_w :
    ((buildIdMap c7cells).map Prod.snd).countP (isTopLevelB (buildIdMap c7cells))
      + ((buildIdMap c7cells).map Prod.snd).countP
          (hasResolvableNonRootParentB (buildIdMap c7cells))
      = (c7cells.filter (fun c => optTruthy c.id)).length :=
  hierarchy_partition_count c7cells (by decide)

/-- C7 counterexample: two cells on the same page sharing the id `"x"`
collapse to one node, so top-level nodes (1) plus resolvable-non-root
nodes (0) is 1, while the page has 2 cells with a non-empty id — the claim
as stated fails on duplicate ids. -/
theorem hierarchy_partition_cex :
    ((buildIdMap dupCells).map Prod.snd).countP (isTopLevelB (buildIdMap dupCells))
      + ((buildIdMap dupCells).map Prod.snd).countP
          (hasResolvableNonRootParentB (buildIdMap dupCells)) = 1
    ∧ (dupCells.filter (fun c => optTruthy c.id)).length = 2 := by
  constructor
  · decide
  · decide

theorem assocUpd_lookup_self (m : List (String × Node)) (k : String) (v : Node) :
    lookupAssoc (assocUpd m k v) k = some v := by
  induction m with
  | nil => simp [assocUpd, lookupAssoc]
  | cons e t ih =>
    obtain ⟨k', v'⟩ := e
    by_cases hk : k' = k
    · simp [assocUpd, hk, lookupAssoc]
    · simp [assocUpd, hk, lookupAssoc, ih]

theorem assocUpd_lookup_ne (m : List (String × Node)) (k k' : String) (v : Node)
    (h : k ≠ k') : lookupAssoc (assocUpd m k v) k' = lookupAssoc m k' := by
  induction m with
  | nil => simp [assocUpd, lookupAssoc, h]
  | cons e t ih =>
    obtain ⟨k₀, v₀⟩ := e
    by_cases hk : k₀ = k
    · subst hk
      simp [assocUpd, lookupAssoc, h]
    · by_cases h2 : k₀ = k'
      · subst h2
        simp [assocUpd, lookupAssoc, hk]
      · simp [assocUpd, hk, lookupAssoc, h2, ih]

theorem lookup_buildIdMap_go :
    ∀ (cells : List Cell) (m : List (String × Node)) (k : String),
      lookupAssoc (cells.foldl buildStep m) k
        = (match lastMatch k cells with
          | some c => some (mkNode c)
          | none => lookupAssoc m k) := by
  intro cells
  induction cells with
  | nil => intro m k; rfl
  | cons c cs ih =>
    intro m k
    simp only [List.foldl_cons]
    rw [ih (buildStep m c) k]
    cases hl : lastMatch k cs with
    | some c' => simp [lastMatch, hl]
    | none =>
      simp only [lastMatch, hl]
      by_cases hc : (optTruthy c.id && (c.id == some k)) = true
      · have hid : c.id = some k := eq_of_beq (Bool.and_elim_right hc)
        have hk : k.data.isEmpty = false := by
          have h1 := Bool.and_elim_left hc
          rw [hid] at h1
          simpa [optTruthy] using h1
        have hstep : buildStep m c = assocUpd m k (mkNode c) := by
          simp [buildStep, hid, hk]
        rw [hstep, assocUpd_lookup_self]
        simp [hc]
      · have hcf : (optTruthy c.id && (c.id == some k)) = false := by
          cases h : optTruthy c.id && (c.id == some k)
          · rfl
          · exact absurd h hc
        simp only [hcf]
        cases hcid : c.id with
        | none => simp [buildStep, hcid]
        | some i =>
          by_cases hie : i.data.isEmpty = true
          · simp [buildStep, hcid, hie]
          · have hieF : i.data.isEmpty = false := by
              cases h : i.data.isEmpty
              · rfl
              · exact absurd h hie
            have htr : optTruthy c.id = true := by simp [optTruthy, hcid, hieF]
            have hbeq : (c.id == some k) = false := by
              cases h : c.id == some k
              · rfl
              · rw [htr, h] at hcf
                simp at hcf
            have hine : i ≠ k := by
              intro he
              rw [hcid, he] at hbeq
              simp at hbeq
            have hstep : buildStep m c = assocUpd m i (mkNode c) := by
              simp [buildStep, hcid, hieF]
            rw [hstep]
            simp [assocUpd_lookup_ne m i k (mkNode c) hine]

/-- C9 (amended): `buildHierarchy` builds one document-global id map, and
a JS object write makes the later entry win, so looking an id up — as the
relationship listing and the full render do for edge endpoints — returns
the node of the LAST cell in document order carrying that id, regardless
of which page the edge itself is on: cross-page lookups are not
page-qualified, and a same-id cell of a later page shadows the node of the
edge's own page. -/
theorem idMap_last_write_wins (cells : List Cell) (k : String) :
    lookupAssoc (buildIdMap cells) k = (lastMatch k cells).map mkNode := by
  have h := lookup_buildIdMap_go cells [] k
  rw [show buildIdMap cells = cells.foldl buildStep [] from rfl, h]
  cases lastMatch k cells <;> simp [lookupAssoc]

/-- C9 counterexample: in a document where page `"A"` holds shape
`"Alpha"` with id `"x"` and an edge sourced at `"x"`, and a later page
`"B"` holds shape `"Beta"` with the same id, the whole-document
relationship resolution resolves the edge's source to page `"B"`'s node
(`"Beta"`), not to the node on the edge's own page (`"Alpha"`). -/
theorem cross_page_resolution_cex :
    (lookupAssoc (buildIdMap c9cells) "e").map (fun n => n.page) = some (some "A")
    ∧ (lookupAssoc (buildIdMap c9cells) "x").map (fun n => n.page) = some (some "B")
    ∧ relEndpointName (buildIdMap c9cells) (some "x") = "Beta"
    ∧ relEndpointName (buildIdMap c9cells) (some "x") ≠ "Alpha" := by
  refine ⟨?_, ?_, ?_, ?_⟩ <;> decide

theorem stepDiagrams_ok (env : DecodeEnv) (xmlParse : String → Except String ModelNode) :
    ∀ (ds : List Diagram), (∀ d' ∈ ds, stepDiagram env xmlParse d' = Except.ok d') →
      stepDiagrams env xmlParse ds = Except.ok ds := by
  intro ds
  induction ds with
  | nil => intro _; rfl
  | cons d0 ds0 ih =>
    intro hall
    have h0 := hall d0 (List.mem_cons_self _ _)
    have hrest : ∀ d' ∈ ds0, stepDiagram env xmlParse d' = Except.ok d' :=
      fun d' hd' => hall d' (List.mem_cons_of_mem _ hd')
    simp [stepDiagrams, h0, ih hrest]

/-- C1 (amended): a failure in the decode pipeline itself — bad base64,
corrupt deflate stream, invalid percent-encoding — is caught inside
`decompressDiagram` (which is total and returns `null`), the page's step
succeeds with the page unchanged, i.e. treated as uncompressed, and a page
with neither an inline graph model nor a successfully decompressed payload
contributes zero cells to `extractAllCells` and hence to every projection;
a document all of whose pages step successfully parses successfully.
(When the pipeline succeeds but the decompressed text is not well-formed
XML, the inner parse rejection does escape `parseDiagramXml` and fails the
request; see the counterexample.) -/
theorem decompression_failure_contained
    (env : DecodeEnv) (xmlParse : String → Except String ModelNode)
    (pn : Option String) (d : Diagram) (txt : String)
    (hm : d.mxGraphModel = none)
    (hc : d.content = some txt)
    (hdec : decompressDiagram env (strTrim txt) = none) :
    stepDiagram env xmlParse d = Except.ok d
    ∧ diagramCells pn d = []
    ∧ (∀ ds : List Diagram, (∀ d' ∈ ds, stepDiagram env xmlParse d' = Except.ok d') →
        parseDiagramXml env xmlParse ⟨some ds⟩ = Except.ok ⟨some ds⟩) := by
  refine ⟨?_, ?_, ?_⟩
  · simp only [stepDiagram, hm, hc]
    by_cases he : (strTrim txt).data.isEmpty = true
    · simp [he]
    · have hef : (strTrim txt).data.isEmpty = false := by
        cases h : (strTrim txt).data.isEmpty
        · rfl
        · exact absurd h he
      simp [hef, hdec]
  · simp [diagramCells, hm]
  · intro ds hall
    simp [parseDiagramXml, stepDiagrams_ok env xmlParse ds hall]

/-- C1 witness: with a throwing base64 step, a page holding only a corrupt
payload steps successfully and unchanged. -/
theorem decompression_failure_contained_w :
    stepDiagram wFailEnv wXmlParse wCorruptDiagram = Except.ok wCorruptDiagram :=
  (decompression_failure_contained wFailEnv wXmlParse none wCorruptDiagram
    "corruptPayload" rfl rfl rfl).1

/-- C1 counterexample: when every decode step succeeds but the decompressed
text is not well-formed XML, the xml2js rejection is not caught by
`parseDiagramXml` — the error propagates past the Decompressor to the
request handler, so the request does not succeed, contradicting the claim
as stated. -/
theorem decompression_xml_error_propagates :
    decompressDiagram cexDecodeEnv (strTrim "AAAA") = some "not xml"
    ∧ parseDiagramXml cexDecodeEnv cexXmlParse cexDoc
        = Except.error "Non-whitespace before first tag." :=
  ⟨rfl, rfl⟩
